import Mathlib

/-!
Verification of the aggregation-selector value codec and binding logic of
`frontend/src/scenes/insights/filters/AggregationSelect.tsx`.

The file embeds the two pure mapping functions (`getHogQLValue`,
`hogQLToFilterValue`), the option-list construction for the custom-expression
entry, and the `onChange` handlers of the two binding wrappers as pure Lean
functions, then proves the specified properties about them.

Modelling conventions:
- a JS `string | undefined` value is `Option String` (`none` = `undefined`);
- a JS `number | undefined` group index is `Option Nat` (group type indices
  are array indices into the group-type registry, hence non-negative integers);
- a JS object field that is absent or holds `undefined` is `none` (the two are
  extensionally indistinguishable to every reader in this file's scope);
- `null` select events are `none` in the event model of the shared component.
-/

namespace AggregationSelect

/-- Decimal value of a digit character, as used by JS `parseInt`. -/
def digitVal (c : Char) : Nat := c.toNat - 48

/-- Value of a string of decimal digits (most significant first). -/
def digitsToNat (ds : List Char) : Nat := ds.foldl (fun a c => 10 * a + digitVal c) 0

/-- Embedding of JS `parseInt(s)` (radix 10, no sign or whitespace handling:
the one call site is guarded by a `^\$group_[0-9]+$` match, so the argument is
a non-empty all-digit string and those cases are unreachable). `none` stands
for the JS result `NaN` (no leading digits). -/
def jsParseIntDec (s : String) : Option Nat :=
  let ds := s.data.takeWhile Char.isDigit
  if ds.isEmpty then none else some (digitsToNat ds)

/-- Embedding of JS `String.prototype.replace(pat, '')` with a string pattern:
removes the first occurrence of `pat`, leaves the string unchanged when `pat`
does not occur. -/
def jsRemoveFirst (pat : List Char) : List Char → List Char
  | [] => []
  | c :: cs =>
    if (c :: cs).take pat.length = pat then (c :: cs).drop pat.length
    else c :: jsRemoveFirst pat cs

def jsReplaceFirstEmpty (s pat : String) : String := ⟨jsRemoveFirst pat.data s.data⟩

/-- Embedding of the regex test `value.match(/^\$group_[0-9]+$/)`: the string
is `"$group_"` (7 characters) followed by one or more decimal digits. -/
def matchesGroupRegex (s : String) : Bool :=
  decide (s.data.take 7 = "$group_".data) && !(s.data.drop 7).isEmpty
    && (s.data.drop 7).all Char.isDigit

/-- `const UNIQUE_USERS = 'person_id'` from the source file. -/
def UNIQUE_USERS : String := "person_id"

/-- The `{ groupIndex?: number; aggregationQuery?: string }` descriptor
returned by `hogQLToFilterValue`. -/
structure AggregationDescriptor where
  groupIndex : Option Nat
  aggregationQuery : Option String
deriving DecidableEq, Repr

/-- Digit character for `n < 10` (used by the decimal rendering of a JS
number in a template literal). -/
def natDigitChar : Nat → Char
  | 0 => '0' | 1 => '1' | 2 => '2' | 3 => '3' | 4 => '4'
  | 5 => '5' | 6 => '6' | 7 => '7' | 8 => '8' | _ => '9'

/-- Decimal digit list of `n`, with `fuel` bounding the recursion depth
(`fuel > n` always suffices); structural in `fuel` so that it computes. -/
def natDigitsGo : Nat → Nat → List Char
  | 0, _ => []
  | fuel + 1, n =>
    if n < 10 then [natDigitChar n]
    else natDigitsGo fuel (n / 10) ++ [natDigitChar (n % 10)]

/-- Embedding of the JS template-literal conversion of a non-negative integer
to its decimal string, as in `` `$group_${groupIndex}` ``. -/
def natToString (n : Nat) : String := ⟨natDigitsGo (n + 1) n⟩

/-- `getHogQLValue` from the source: `$group_<i>` when a group index is
present, else the aggregation query when truthy (a non-empty string), else
`UNIQUE_USERS`. -/
def getHogQLValue (groupIndex : Option Nat) (aggregationQuery : Option String) : String :=
  match groupIndex with
  | some g => "$group_" ++ natToString g
  | none =>
    match aggregationQuery with
    | some q => if q = "" then UNIQUE_USERS else q
    | none => UNIQUE_USERS

/-- `hogQLToFilterValue` from the source. For `value = none` (JS `undefined`)
the optional chain `value?.match` yields no match and `undefined === 'person_id'`
is false, so the catch-all branch returns `{ aggregationQuery: undefined }`,
i.e. both fields `none` here. -/
def hogQLToFilterValue (value : Option String) : AggregationDescriptor :=
  match value with
  | some s =>
    if matchesGroupRegex s then
      { groupIndex := jsParseIntDec (jsReplaceFirstEmpty s "$group_"), aggregationQuery := none }
    else if s = "person_id" then
      { groupIndex := none, aggregationQuery := none }
    else
      { groupIndex := none, aggregationQuery := some s }
  | none => { groupIndex := none, aggregationQuery := none }

/-! ### Basic string plumbing -/

theorem strEta (s : String) : (⟨s.data⟩ : String) = s := by cases s; rfl

theorem strData_append (a b : String) : (a ++ b).data = a.data ++ b.data := by
  cases a; cases b; rfl

theorem strMk_append (a b : List Char) : (⟨a ++ b⟩ : String) = ⟨a⟩ ++ ⟨b⟩ := rfl

theorem strNe_empty_iff (s : String) : s ≠ "" ↔ s.data ≠ [] := by
  constructor
  · intro h hl
    apply h
    calc s = ⟨s.data⟩ := (strEta s).symm
      _ = ⟨[]⟩ := by rw [hl]
  · intro h he
    apply h
    rw [he]

theorem jsRemoveFirst_append (pat rest : List Char) :
    jsRemoveFirst pat (pat ++ rest) = rest := by
  cases h : pat ++ rest with
  | nil =>
    rcases List.append_eq_nil.mp h with ⟨h1, h2⟩
    simp [jsRemoveFirst, h2]
  | cons c cs =>
    have ht : (c :: cs).take pat.length = pat := by rw [← h]; exact List.take_left _ _
    have hd : (c :: cs).drop pat.length = rest := by rw [← h]; exact List.drop_left _ _
    simp [jsRemoveFirst, ht, hd]

/-- The regex test succeeds exactly on `"$group_"` followed by a non-empty
all-digit suffix. -/
theorem matchesGroupRegex_iff (s : String) :
    matchesGroupRegex s = true ↔
      ∃ ds : String, s = "$group_" ++ ds ∧ ds ≠ "" ∧ ds.data.all Char.isDigit = true := by
  constructor
  · intro h
    simp only [matchesGroupRegex, Bool.and_eq_true, decide_eq_true_eq,
      Bool.not_eq_true', List.isEmpty_eq_false] at h
    obtain ⟨⟨h1, h2⟩, h3⟩ := h
    refine ⟨⟨s.data.drop 7⟩, ?_, ?_, h3⟩
    · have hs : s.data = "$group_".data ++ s.data.drop 7 := by
        conv_lhs => rw [← List.take_append_drop 7 s.data, h1]
      calc s = ⟨s.data⟩ := (strEta s).symm
        _ = ⟨"$group_".data ++ s.data.drop 7⟩ := by rw [← hs]
        _ = "$group_" ++ ⟨s.data.drop 7⟩ := strMk_append _ _
    · rw [strNe_empty_iff]; exact h2
  · rintro ⟨ds, rfl, hne, hdig⟩
    have hdata : ("$group_" ++ ds).data = "$group_".data ++ ds.data := strData_append _ _
    have hlen : "$group_".data.length = 7 := by decide
    simp only [matchesGroupRegex, hdata, Bool.and_eq_true, decide_eq_true_eq,
      Bool.not_eq_true', List.isEmpty_eq_false]
    rw [← hlen, List.take_left, List.drop_left]
    exact ⟨⟨rfl, (strNe_empty_iff ds).mp hne⟩, hdig⟩

theorem jsParseIntDec_digits (l : List Char) (hne : l ≠ []) (hdig : l.all Char.isDigit = true) :
    jsParseIntDec ⟨l⟩ = some (digitsToNat l) := by
  have ht : l.takeWhile Char.isDigit = l :=
    List.takeWhile_eq_self_iff.mpr (List.all_eq_true.mp hdig)
  simp [jsParseIntDec, ht, hne]

/-- On a string passing the regex guard, `hogQLToFilterValue` returns the
parsed value of the digit suffix and no aggregation query. -/
theorem hogQLToFilterValue_matched (s : String) (h : matchesGroupRegex s = true) :
    hogQLToFilterValue (some s) = ⟨some (digitsToNat (s.data.drop 7)), none⟩ := by
  obtain ⟨ds, rfl, hne, hdig⟩ := (matchesGroupRegex_iff s).mp h
  have hdata : ("$group_" ++ ds).data = "$group_".data ++ ds.data := strData_append _ _
  have hlen : "$group_".data.length = 7 := by decide
  have hdrop : ("$group_" ++ ds).data.drop 7 = ds.data := by
    rw [hdata, ← hlen, List.drop_left]
  have hrepl : jsReplaceFirstEmpty ("$group_" ++ ds) "$group_" = ⟨ds.data⟩ := by
    unfold jsReplaceFirstEmpty
    rw [hdata, jsRemoveFirst_append]
  have hdne : ds.data ≠ [] := (strNe_empty_iff ds).mp hne
  simp only [hogQLToFilterValue, h, if_true, hrepl, hdrop,
    jsParseIntDec_digits ds.data hdne hdig]

/-! ### Decimal rendering of a group index -/

theorem natDigitChar_isDigit (n : Nat) (h : n < 10) : (natDigitChar n).isDigit = true := by
  interval_cases n <;> decide

theorem digitVal_natDigitChar (n : Nat) (h : n < 10) : digitVal (natDigitChar n) = n := by
  interval_cases n <;> decide

theorem digitsToNat_append_singleton (a : List Char) (c : Char) :
    digitsToNat (a ++ [c]) = 10 * digitsToNat a + digitVal c := by
  simp [digitsToNat, List.foldl_append]

theorem natDigitsGo_spec (fuel : Nat) : ∀ n : Nat, n < fuel →
    natDigitsGo fuel n ≠ [] ∧ (natDigitsGo fuel n).all Char.isDigit = true ∧
      digitsToNat (natDigitsGo fuel n) = n := by
  induction fuel with
  | zero => intro n h; omega
  | succ fuel ih =>
    intro n h
    by_cases h10 : n < 10
    · refine ⟨by simp [natDigitsGo, h10], ?_, ?_⟩
      · simp [natDigitsGo, h10, natDigitChar_isDigit n h10]
      · simp [natDigitsGo, h10, digitsToNat, digitVal_natDigitChar n h10]
    · have hdiv : n / 10 < n := Nat.div_lt_self (by omega) (by omega)
      obtain ⟨ih1, ih2, ih3⟩ := ih (n / 10) (by omega)
      have hmod : n % 10 < 10 := Nat.mod_lt _ (by omega)
      refine ⟨by simp [natDigitsGo, h10], ?_, ?_⟩
      · simp [natDigitsGo, h10, List.all_append, ih2, natDigitChar_isDigit _ hmod]
      · have hda := digitsToNat_append_singleton (natDigitsGo fuel (n / 10)) (natDigitChar (n % 10))
        have := Nat.div_add_mod n 10
        simp only [natDigitsGo, h10, if_false, hda, ih3, digitVal_natDigitChar _ hmod]
        omega

theorem natToString_data (n : Nat) : (natToString n).data = natDigitsGo (n + 1) n := rfl

theorem natToString_ne_empty (n : Nat) : natToString n ≠ "" := by
  rw [strNe_empty_iff, natToString_data]
  exact (natDigitsGo_spec (n + 1) n (Nat.lt_succ_self n)).1

theorem natToString_all_digits (n : Nat) : (natToString n).data.all Char.isDigit = true := by
  rw [natToString_data]
  exact (natDigitsGo_spec (n + 1) n (Nat.lt_succ_self n)).2.1

theorem digitsToNat_natToString (n : Nat) : digitsToNat (natToString n).data = n := by
  rw [natToString_data]
  exact (natDigitsGo_spec (n + 1) n (Nat.lt_succ_self n)).2.2

/-- Decoding the encoded form of a group index recovers that index. -/
theorem decode_group_string (n : Nat) :
    hogQLToFilterValue (some ("$group_" ++ natToString n)) = ⟨some n, none⟩ := by
  have hm : matchesGroupRegex ("$group_" ++ natToString n) = true :=
    (matchesGroupRegex_iff _).mpr
      ⟨natToString n, rfl, natToString_ne_empty n, natToString_all_digits n⟩
  have hlen : "$group_".data.length = 7 := by decide
  have hdrop : ("$group_" ++ natToString n).data.drop 7 = (natToString n).data := by
    rw [strData_append, ← hlen]
    exact List.drop_left _ _
  rw [hogQLToFilterValue_matched _ hm, hdrop, digitsToNat_natToString]

/-! ### Binding wrappers

The two wrappers dispatch a store update from their `onChange` handlers. The
update payloads are modelled explicitly so that "which fields the dispatched
update carries" is part of the state. Funnel filters and legacy filter
objects carry their remaining fields as an opaque key-value list, standing
for the JS object fields this file does not interpret. -/

inductive NodeKind where
  | funnelsQuery
  | otherInsightQuery
deriving DecidableEq, Repr

/-- The funnels-specific nested filter of a query node. Only
`funnel_aggregate_by_hogql` is interpreted here; `otherFields` stands for the
remaining JS object entries carried along by the spread. -/
structure FunnelsFilterM where
  funnel_aggregate_by_hogql : Option String
  otherFields : List (String × String)
deriving DecidableEq, Repr

/-- The insight query node read by `AggregationSelectDataExploration`. -/
structure QuerySourceM where
  kind : NodeKind
  aggregation_group_type_index : Option Nat
  funnelsFilter : Option FunnelsFilterM
deriving DecidableEq, Repr

/-- Modelled from the spec: `isFunnelsQuery` (imported from `queries/utils`,
not part of this file's source) recognizes whether the active query node is a
funnels query, by its node kind. -/
def isFunnelsQuery (q : QuerySourceM) : Bool := q.kind = NodeKind.funnelsQuery

/-- The partial query object passed to `updateQuerySource`: the funnel branch
carries a `funnelsFilter` key, the other branch carries none. -/
structure QueryUpdatePayload where
  aggregation_group_type_index : Option Nat
  funnelsFilter : Option FunnelsFilterM
deriving DecidableEq, Repr

/-- The spread `{ ...querySource.funnelsFilter, funnel_aggregate_by_hogql: aggregationQuery }`:
spreading `undefined` contributes nothing, and the explicit key written after
the spread overrides any spread-in value. -/
def spreadFunnelsFilterWith (old : Option FunnelsFilterM) (q : Option String) : FunnelsFilterM :=
  { funnel_aggregate_by_hogql := q
    otherFields := (old.map FunnelsFilterM.otherFields).getD [] }

/-- The `onChange` handler of `AggregationSelectDataExploration` (lines
64-74): decode the selector, then dispatch either a funnel update (group
index plus rebuilt `funnelsFilter`) or a plain group-index update. -/
def dataExplorationOnChange (querySource : QuerySourceM) (value : Option String) :
    QueryUpdatePayload :=
  let d := hogQLToFilterValue value
  if isFunnelsQuery querySource then
    { aggregation_group_type_index := d.groupIndex
      funnelsFilter := some (spreadFunnelsFilterWith querySource.funnelsFilter d.aggregationQuery) }
  else
    { aggregation_group_type_index := d.groupIndex
      funnelsFilter := none }

inductive InsightTypeM where
  | funnels
  | otherInsight
deriving DecidableEq, Repr

/-- The legacy filter object read by `AggregationSelect`. `otherFields`
stands for the remaining filter keys carried through `{ ...filters, ... }`. -/
structure FilterTypeM where
  insight : InsightTypeM
  aggregation_group_type_index : Option Nat
  funnel_aggregate_by_hogql : Option String
  otherFields : List (String × String)
deriving DecidableEq, Repr

/-- Modelled from the spec: `isFunnelsFilter` (imported from
`scenes/insights/sharedUtils`, not part of this file's source) recognizes a
legacy filter object as a funnels filter, by its insight type. -/
def isFunnelsFilter (f : FilterTypeM) : Bool := f.insight = InsightTypeM.funnels

/-- The `onChange` handler of `AggregationSelect` (lines 93-107): decode the
selector, then call `setFilters` with the spread of the old filters and the
branch-dependent overrides. -/
def aggregationSelectOnChange (filters : FilterTypeM) (value : Option String) : FilterTypeM :=
  let d := hogQLToFilterValue value
  if isFunnelsFilter filters then
    { filters with
        aggregation_group_type_index := d.groupIndex
        funnel_aggregate_by_hogql := d.aggregationQuery }
  else
    { filters with aggregation_group_type_index := d.groupIndex }

/-- The `onChange` wrapper `AggregationSelectComponent` passes to
`LemonSelect` (lines 191-195): the caller-supplied handler runs only when the
event is not `null`. `none` on the outside means the handler was not invoked;
`some a` means it was invoked with argument `a`. -/
def componentSelectOnChange (newValue : Option String) : Option (Option String) :=
  match newValue with
  | none => none
  | some v => some (some v)

/-- End-to-end dispatch of the data-exploration wrapper for one select event:
`none` when no store write happens. -/
def dataExplorationDispatch (qs : QuerySourceM) (event : Option String) :
    Option QueryUpdatePayload :=
  (componentSelectOnChange event).map (dataExplorationOnChange qs)

/-- End-to-end dispatch of the legacy wrapper for one select event: `none`
when no store write happens. -/
def aggregationSelectDispatch (f : FilterTypeM) (event : Option String) :
    Option FilterTypeM :=
  (componentSelectOnChange event).map (aggregationSelectOnChange f)

/-! ### Option-list builder -/

/-- The `baseValues` list built by `AggregationSelectComponent` (lines
129-160): `person_id`, then one `$group_<i>` token per registered group type
when group access is not gated, then `properties.$session_id` when HogQL is
available. -/
def buildBaseValues (needsUpgradeForGroups canStartUsingGroups : Bool)
    (groupTypeIndices : List Nat) (hogqlAvailable : Bool) : List String :=
  ["person_id"]
    ++ (if needsUpgradeForGroups || canStartUsingGroups then []
        else groupTypeIndices.map (fun i => "$group_" ++ natToString i))
    ++ (if hogqlAvailable then ["properties.$session_id"] else [])

/-- The `value` of the trailing custom-HogQL option (line 167):
`!value || baseValues.includes(value) ? '' : value`. -/
def customHogQLOptionValue (needsUpgradeForGroups canStartUsingGroups : Bool)
    (groupTypeIndices : List Nat) (hogqlAvailable : Bool) (value : Option String) : String :=
  let baseValues :=
    buildBaseValues needsUpgradeForGroups canStartUsingGroups groupTypeIndices hogqlAvailable
  match value with
  | none => ""
  | some v => if v = "" then "" else if baseValues.contains v then "" else v

/-! ### Shared facts about the codec, used by several claim theorems -/

theorem drop7_group_append (ds : String) : ("$group_" ++ ds).data.drop 7 = ds.data := by
  have hlen : "$group_".data.length = 7 := by decide
  rw [strData_append, ← hlen]
  exact List.drop_left _ _

/-- Decoding `"$group_" ++ ds` for a non-empty all-digit `ds` yields the
numeric value of `ds` and no aggregation query. -/
theorem decode_matched_append (ds : String) (hne : ds ≠ "")
    (hdig : ds.data.all Char.isDigit = true) :
    hogQLToFilterValue (some ("$group_" ++ ds)) = ⟨some (digitsToNat ds.data), none⟩ := by
  have hm : matchesGroupRegex ("$group_" ++ ds) = true :=
    (matchesGroupRegex_iff _).mpr ⟨ds, rfl, hne, hdig⟩
  rw [hogQLToFilterValue_matched _ hm, drop7_group_append]

/-- On a string failing the regex guard and different from `person_id`, the
decoder takes the catch-all branch. -/
theorem decode_unmatched (s : String) (hm : matchesGroupRegex s = false)
    (hp : s ≠ "person_id") :
    hogQLToFilterValue (some s) = ⟨none, some s⟩ := by
  simp [hogQLToFilterValue, hm, hp]

/-- The decoder returns the both-absent descriptor on a string input exactly
for `person_id`. -/
theorem decode_eq_empty_iff (s : String) :
    hogQLToFilterValue (some s) = ⟨none, none⟩ ↔ s = "person_id" := by
  constructor
  · intro h
    by_cases hm : matchesGroupRegex s
    · rw [hogQLToFilterValue_matched s hm] at h
      simp at h
    · by_cases hp : s = "person_id"
      · exact hp
      · rw [decode_unmatched s (by simp [hm]) hp] at h
        simp at h
  · rintro rfl
    decide

/-! ### Claim theorems -/

/-- C1, counterexample: the round-trip claim fails as stated. For
`g = undefined` and the non-empty `q = "person_id"` the claim predicts
`{aggregationQuery: "person_id"}`, but encode returns `"person_id"` verbatim
and decode maps it to `{}`; likewise for `q = "$group_3"` the claim predicts
`{aggregationQuery: "$group_3"}` but decode maps it to `{groupIndex: 3}`. -/
theorem roundtrip_counterexample :
    hogQLToFilterValue (some (getHogQLValue none (some "person_id"))) ≠
      { groupIndex := none, aggregationQuery := some "person_id" } ∧
    hogQLToFilterValue (some (getHogQLValue none (some "$group_3"))) ≠
      { groupIndex := none, aggregationQuery := some "$group_3" } := by decide

/-- C1 (amended): `decode(encode(g, q))` round-trips when the aggregation
query is not itself one of the reserved selector shapes: if `g` is defined
the result is `{groupIndex: g}`; else if `q` is a non-empty string other than
`"person_id"` that does not match `$group_` followed by digits, the result is
`{aggregationQuery: q}`; else if `q` is absent or empty the result is `{}`. -/
theorem roundtrip_amended (g : Option Nat) (q : Option String) :
    (∀ n : Nat, g = some n →
      hogQLToFilterValue (some (getHogQLValue g q)) = ⟨some n, none⟩) ∧
    (g = none → ∀ s : String, q = some s → s ≠ "" → s ≠ "person_id" →
      matchesGroupRegex s = false →
      hogQLToFilterValue (some (getHogQLValue g q)) = ⟨none, some s⟩) ∧
    (g = none → q = none ∨ q = some "" →
      hogQLToFilterValue (some (getHogQLValue g q)) = ⟨none, none⟩) := by
  refine ⟨?_, ?_, ?_⟩
  · rintro n rfl
    show hogQLToFilterValue (some ("$group_" ++ natToString n)) = _
    exact decode_group_string n
  · rintro rfl s rfl hne hp hm
    have henc : getHogQLValue none (some s) = s := by simp [getHogQLValue, hne]
    rw [henc]
    exact decode_unmatched s hm hp
  · rintro rfl (rfl | rfl) <;> decide

/-- C1, witness for the amended round trip at concrete inputs. -/
theorem roundtrip_amended_witness :
    hogQLToFilterValue (some (getHogQLValue (some 4) none)) = ⟨some 4, none⟩ ∧
    hogQLToFilterValue (some (getHogQLValue none (some "distinct_id"))) =
      ⟨none, some "distinct_id"⟩ ∧
    hogQLToFilterValue (some (getHogQLValue none none)) = ⟨none, none⟩ :=
  ⟨(roundtrip_amended (some 4) none).1 4 rfl,
   (roundtrip_amended none (some "distinct_id")).2.1 rfl "distinct_id" rfl
     (by decide) (by decide) (by decide),
   (roundtrip_amended none none).2.2 rfl (Or.inl rfl)⟩

/-- C2: `hogQLToFilterValue` returns `{groupIndex: N}` with `N` the parsed
integer exactly when the input matches `"$group_"` followed by one or more
digits, returns `{}` exactly when the input equals `"person_id"`, and
otherwise returns `{aggregationQuery: s}` — including the undefined input
(whose catch-all result `{aggregationQuery: undefined}` has both fields
absent) and the empty string; in particular `decode("$group_3") =
{groupIndex: 3}` and `decode("$group_12") = {groupIndex: 12}`. -/
theorem hogQLToFilterValue_spec (s : String) :
    (matchesGroupRegex s = true ↔
      ∃ ds : String, s = "$group_" ++ ds ∧ ds ≠ "" ∧ ds.data.all Char.isDigit = true) ∧
    (∀ ds : String, s = "$group_" ++ ds → ds ≠ "" → ds.data.all Char.isDigit = true →
      hogQLToFilterValue (some s) = ⟨some (digitsToNat ds.data), none⟩) ∧
    (hogQLToFilterValue (some s) = ⟨none, none⟩ ↔ s = "person_id") ∧
    (matchesGroupRegex s = false → s ≠ "person_id" →
      hogQLToFilterValue (some s) = ⟨none, some s⟩) ∧
    hogQLToFilterValue none = ⟨none, none⟩ ∧
    hogQLToFilterValue (some "$group_3") = ⟨some 3, none⟩ ∧
    hogQLToFilterValue (some "$group_12") = ⟨some 12, none⟩ ∧
    hogQLToFilterValue (some "") = ⟨none, some ""⟩ := by
  refine ⟨matchesGroupRegex_iff s, ?_, decode_eq_empty_iff s, decode_unmatched s,
    rfl, by decide, by decide, by decide⟩
  rintro ds rfl hne hdig
  exact decode_matched_append ds hne hdig

/-- C2, witness: the group branch at a concrete input. -/
theorem hogQLToFilterValue_spec_witness :
    hogQLToFilterValue (some "$group_42") = ⟨some 42, none⟩ := by
  have h := (hogQLToFilterValue_spec "$group_42").2.1 "42" (by decide) (by decide) (by decide)
  rw [h]
  decide

/-- C3: `getHogQLValue` returns `"$group_" + g` when the group index is
present (regardless of the aggregation query); else the query verbatim when
it is a non-empty string; else `"person_id"`; in particular
`encode(undefined, undefined) = "person_id"`. -/
theorem getHogQLValue_spec (g : Option Nat) (q : Option String) :
    (∀ n : Nat, g = some n → getHogQLValue g q = "$group_" ++ natToString n) ∧
    (g = none → ∀ s : String, q = some s → s ≠ "" → getHogQLValue g q = s) ∧
    (g = none → q = none ∨ q = some "" → getHogQLValue g q = "person_id") ∧
    getHogQLValue none none = "person_id" := by
  refine ⟨?_, ?_, ?_, rfl⟩
  · rintro n rfl; rfl
  · rintro rfl s rfl hne
    simp [getHogQLValue, hne]
  · rintro rfl (rfl | rfl) <;> rfl

/-- C3, witness: the group branch and the verbatim branch at concrete
inputs. -/
theorem getHogQLValue_spec_witness :
    getHogQLValue (some 5) (some "x") = "$group_5" ∧
    getHogQLValue none (some "distinct_id") = "distinct_id" := by
  constructor
  · have h := (getHogQLValue_spec (some 5) (some "x")).1 5 rfl
    rw [h]
    decide
  · exact (getHogQLValue_spec none (some "distinct_id")).2.1 rfl "distinct_id" rfl (by decide)

/-- C4: the decoder is total — every input (any string, or undefined) yields
a descriptor — and whenever the digit-guarded group branch fires, the parse
cannot fail: the result is a well-formed non-negative integer index. -/
theorem hogQLToFilterValue_total_wellformed (v : Option String) :
    (∃ d : AggregationDescriptor, hogQLToFilterValue v = d) ∧
    (∀ s : String, v = some s → matchesGroupRegex s = true →
      ∃ n : Nat, hogQLToFilterValue v = ⟨some n, none⟩) := by
  refine ⟨⟨_, rfl⟩, ?_⟩
  rintro s rfl hm
  exact ⟨digitsToNat (s.data.drop 7), hogQLToFilterValue_matched s hm⟩

/-- C4, witness: the guarded parse succeeds at a concrete group token. -/
theorem hogQLToFilterValue_total_wellformed_witness :
    ∃ n : Nat, hogQLToFilterValue (some "$group_9") = ⟨some n, none⟩ :=
  (hogQLToFilterValue_total_wellformed (some "$group_9")).2 "$group_9" rfl (by decide)

/-- C5: every descriptor the decoder produces on a string input has at most
one of its two fields set, and both fields are absent exactly for the
`"person_id"` input (the aggregate-by-unique-person case). -/
theorem hogQLToFilterValue_invariant (s : String) :
    ((hogQLToFilterValue (some s)).groupIndex = none ∨
      (hogQLToFilterValue (some s)).aggregationQuery = none) ∧
    (hogQLToFilterValue (some s) = ⟨none, none⟩ ↔ s = "person_id") := by
  refine ⟨?_, decode_eq_empty_iff s⟩
  by_cases hm : matchesGroupRegex s
  · rw [hogQLToFilterValue_matched s hm]
    right
    rfl
  · by_cases hp : s = "person_id"
    · subst hp
      left
      rfl
    · rw [decode_unmatched s (by simp [hm]) hp]
      left
      rfl

/-- C6: in both wrappers' `onChange` handlers the decoded aggregation query
is written into the nested `funnel_aggregate_by_hogql` field exactly when the
active query/filter is recognized as a funnel: the data-exploration payload
carries a `funnelsFilter` holding the decoded query in the funnel branch and
carries no `funnelsFilter` at all otherwise; the legacy update overwrites
`funnel_aggregate_by_hogql` with the decoded query in the funnel branch and
leaves it untouched (in particular absent when it was absent) otherwise. -/
theorem onChange_funnel_write_iff (qs : QuerySourceM) (f : FilterTypeM) (v : Option String) :
    (isFunnelsQuery qs = true →
      (dataExplorationOnChange qs v).funnelsFilter.map FunnelsFilterM.funnel_aggregate_by_hogql =
        some (hogQLToFilterValue v).aggregationQuery) ∧
    (isFunnelsQuery qs = false → (dataExplorationOnChange qs v).funnelsFilter = none) ∧
    (isFunnelsFilter f = true →
      (aggregationSelectOnChange f v).funnel_aggregate_by_hogql =
        (hogQLToFilterValue v).aggregationQuery) ∧
    (isFunnelsFilter f = false →
      (aggregationSelectOnChange f v).funnel_aggregate_by_hogql =
        f.funnel_aggregate_by_hogql) := by
  refine ⟨fun h => ?_, fun h => ?_, fun h => ?_, fun h => ?_⟩ <;>
    simp [dataExplorationOnChange, aggregationSelectOnChange, spreadFunnelsFilterWith, h]

/-- C6, witness: both branches of both wrappers at concrete states. -/
theorem onChange_funnel_write_iff_witness :
    (dataExplorationOnChange ⟨NodeKind.funnelsQuery, none, some ⟨none, [("k", "v")]⟩⟩
        (some "q")).funnelsFilter.map FunnelsFilterM.funnel_aggregate_by_hogql =
      some (some "q") ∧
    (dataExplorationOnChange ⟨NodeKind.otherInsightQuery, some 1, none⟩
        (some "q")).funnelsFilter = none ∧
    (aggregationSelectOnChange ⟨InsightTypeM.funnels, none, some "old", []⟩
        (some "q")).funnel_aggregate_by_hogql = some "q" ∧
    (aggregationSelectOnChange ⟨InsightTypeM.otherInsight, none, none, []⟩
        (some "q")).funnel_aggregate_by_hogql = none := by
  refine ⟨?_, ?_, ?_, ?_⟩
  · have h := (onChange_funnel_write_iff ⟨NodeKind.funnelsQuery, none, some ⟨none, [("k", "v")]⟩⟩
      ⟨InsightTypeM.funnels, none, none, []⟩ (some "q")).1 (by decide)
    rw [h]
    decide
  · exact (onChange_funnel_write_iff ⟨NodeKind.otherInsightQuery, some 1, none⟩
      ⟨InsightTypeM.funnels, none, none, []⟩ (some "q")).2.1 (by decide)
  · have h := (onChange_funnel_write_iff ⟨NodeKind.otherInsightQuery, none, none⟩
      ⟨InsightTypeM.funnels, none, some "old", []⟩ (some "q")).2.2.1 (by decide)
    rw [h]
    decide
  · exact (onChange_funnel_write_iff ⟨NodeKind.otherInsightQuery, none, none⟩
      ⟨InsightTypeM.otherInsight, none, none, []⟩ (some "q")).2.2.2 (by decide)

/-- C7: a `null` selection event from the underlying select control is
ignored: the caller-supplied `onChange` is not invoked, and consequently
neither wrapper dispatches any store update. -/
theorem null_event_no_dispatch (qs : QuerySourceM) (f : FilterTypeM) :
    componentSelectOnChange none = none ∧
    dataExplorationDispatch qs none = none ∧
    aggregationSelectDispatch f none = none :=
  ⟨rfl, rfl, rfl⟩

/-- C8: the trailing custom-expression option's value is blank when the
current selector is absent or one of the known fixed values — `person_id`,
the offered `$group_<i>` tokens (offered only when group access is not
gated), and `properties.$session_id` when HogQL is available — and otherwise
equals the raw selector string. -/
theorem customOption_value_spec (nU cS : Bool) (gts : List Nat) (hA : Bool) (v : Option String) :
    (∀ s : String, s ∈ buildBaseValues nU cS gts hA ↔
      (s = "person_id" ∨
        ((nU || cS) = false ∧ ∃ i ∈ gts, s = "$group_" ++ natToString i) ∨
        (hA = true ∧ s = "properties.$session_id"))) ∧
    (v = none → customHogQLOptionValue nU cS gts hA v = "") ∧
    (∀ s : String, v = some s → s ∈ buildBaseValues nU cS gts hA →
      customHogQLOptionValue nU cS gts hA v = "") ∧
    (∀ s : String, v = some s → s ∉ buildBaseValues nU cS gts hA →
      customHogQLOptionValue nU cS gts hA v = s) := by
  refine ⟨?_, ?_, ?_, ?_⟩
  · intro s
    by_cases hg : (nU || cS) = true <;> by_cases hh : hA = true <;>
      simp [buildBaseValues, hg, hh, List.mem_map, eq_comm]
  · rintro rfl; rfl
  · rintro s rfl hmem
    by_cases hs : s = "" <;>
      simp [customHogQLOptionValue, hs, List.elem_eq_mem, hmem]
  · rintro s rfl hnmem
    by_cases hs : s = ""
    · subst hs; rfl
    · simp [customHogQLOptionValue, hs, List.elem_eq_mem, hnmem]

/-- C8, witness: a custom selector not among the fixed values is shown raw,
and a fixed value is shown blank. -/
theorem customOption_value_spec_witness :
    customHogQLOptionValue false false [0, 2] true (some "distinct_id") = "distinct_id" ∧
    customHogQLOptionValue false false [0, 2] true (some "$group_2") = "" :=
  ⟨(customOption_value_spec false false [0, 2] true (some "distinct_id")).2.2.2
      "distinct_id" rfl (by decide),
   (customOption_value_spec false false [0, 2] true (some "$group_2")).2.2.1
      "$group_2" rfl (by decide)⟩

/-- C9: for every non-empty string that is neither `person_id` nor a
`$group_<digits>` token, encoding the fields of its decoding returns the
string itself; the string-level round trip does not extend to all strings:
`""` maps to `"person_id"` and `"$group_007"` maps to `"$group_7"`. -/
theorem encode_decode_string_roundtrip (s : String) :
    (s ≠ "" → s ≠ "person_id" → matchesGroupRegex s = false →
      getHogQLValue (hogQLToFilterValue (some s)).groupIndex
        (hogQLToFilterValue (some s)).aggregationQuery = s) ∧
    getHogQLValue (hogQLToFilterValue (some "")).groupIndex
      (hogQLToFilterValue (some "")).aggregationQuery = "person_id" ∧
    getHogQLValue (hogQLToFilterValue (some "$group_007")).groupIndex
      (hogQLToFilterValue (some "$group_007")).aggregationQuery = "$group_7" := by
  refine ⟨?_, by decide, by decide⟩
  intro hne hp hm
  rw [decode_unmatched s hm hp]
  simp [getHogQLValue, hne]

/-- C9, witness: the string-level round trip at a concrete custom
expression. -/
theorem encode_decode_string_roundtrip_witness :
    getHogQLValue (hogQLToFilterValue (some "properties.$session_id")).groupIndex
      (hogQLToFilterValue (some "properties.$session_id")).aggregationQuery =
      "properties.$session_id" :=
  (encode_decode_string_roundtrip "properties.$session_id").1
    (by decide) (by decide) (by decide)

/-- C10: when the selector decodes to a pure custom expression
(`groupIndex` absent, `aggregationQuery` set) and the query/filter is not a
funnel, both handlers drop the expression: the data-exploration payload is
exactly `{aggregation_group_type_index: undefined}` with no funnel filter,
and the legacy update only clears `aggregation_group_type_index`, carrying
the expression nowhere. -/
theorem nonfunnel_drops_custom_expression (qs : QuerySourceM) (f : FilterTypeM)
    (v : Option String) (s : String) :
    isFunnelsQuery qs = false → isFunnelsFilter f = false →
    hogQLToFilterValue v = ⟨none, some s⟩ →
    dataExplorationOnChange qs v = ⟨none, none⟩ ∧
    aggregationSelectOnChange f v = { f with aggregation_group_type_index := none } := by
  intro h1 h2 h3
  constructor
  · simp [dataExplorationOnChange, h1, h3]
  · simp [aggregationSelectOnChange, h2, h3]

/-- C10, witness: a concrete custom expression is dropped by both non-funnel
handlers. -/
theorem nonfunnel_drops_custom_expression_witness :
    dataExplorationOnChange ⟨NodeKind.otherInsightQuery, some 2, none⟩ (some "my_expr") =
      ⟨none, none⟩ ∧
    aggregationSelectOnChange ⟨InsightTypeM.otherInsight, some 2, none, [("k", "v")]⟩
        (some "my_expr") =
      ⟨InsightTypeM.otherInsight, none, none, [("k", "v")]⟩ := by
  have h := nonfunnel_drops_custom_expression ⟨NodeKind.otherInsightQuery, some 2, none⟩
    ⟨InsightTypeM.otherInsight, some 2, none, [("k", "v")]⟩ (some "my_expr") "my_expr"
    (by decide) (by decide) (by decide)
  exact ⟨h.1, h.2⟩

end AggregationSelect
